import Mathlib

/-!
Shallow embedding of the event-normalization engine of `build_calendars.py`
(the CSV → ICS feed generator), together with proofs of the testable
properties of its specification.

Modelling conventions:
* Python strings are Lean `String`s; per-character operations work on
  `String.data` (`List Char`).
* A pandas `Timestamp` (naive, second granularity) is an `Int`: seconds
  since 1970-01-01 00:00:00.  `.date()` is floor division by 86400,
  `Timedelta(hours=1)` is `+ 3600`, `Timedelta(days=1)` is `+ 86400`.
* A `Row` carries the per-row cell values as the row loop of
  `build_calendars.py` sees them after column resolution: `title`,
  `calendar`, `location`, `uid` already passed through `clean_str`,
  `start?`/`end?` are the `parse_dt` / `combine_date_time` results
  (`none` = unparseable or absent), `allday?`/`transp?` are the raw cell
  rendered by `str(...)` when the column is resolved, `none` when the
  column is absent.
* CSV download, pandas parsing and file writing are external collaborators;
  the in-memory manifest list and per-calendar event lists are modelled
  directly.
-/

namespace CalGen

/-! ### Python string primitives (`str.strip`, `str.lower`, `str.strip("-")`) -/

/-- ASCII whitespace as recognised by Python's `str.strip()`. -/
def isPyWs (c : Char) : Bool :=
  c = ' ' || c = '\t' || c = '\n' || c = '\x0d' || c = '\x0b' || c = '\x0c'

/-- `str.lower` on one character (ASCII range, which is all the engine relies on). -/
def lowerChar (c : Char) : Char :=
  if 'A' ≤ c ∧ c ≤ 'Z' then Char.ofNat (c.toNat + 32) else c

/-- Drop characters satisfying `p` from both ends of a character list. -/
def stripList (p : Char → Bool) (l : List Char) : List Char :=
  ((l.dropWhile p).reverse.dropWhile p).reverse

/-- `s.strip()` (Python). -/
def pyStrip (s : String) : String := String.mk (stripList isPyWs s.data)

/-- `s.lower()` (Python, ASCII). -/
def pyLower (s : String) : String := String.mk (s.data.map lowerChar)

/-! ### `slugify` (`build_calendars.py` lines 42-47)

```python
_slug_re = re.compile(r"[^a-z0-9]+")
def slugify(name):
    s = (name or "").strip().lower()
    s = _slug_re.sub("-", s).strip("-")
    return s or "calendar"
``` -/

/-- Characters that survive the slug regex `[^a-z0-9]+`. -/
def isSlugChar (c : Char) : Bool :=
  ('a' ≤ c && c ≤ 'z') || ('0' ≤ c && c ≤ '9')

/-- `_slug_re.sub("-", s)`: replace each maximal run of non-`[a-z0-9]`
characters by a single hyphen.  The boolean argument records whether the
previous character was part of such a run (so the hyphen for the current
run has already been emitted). -/
def subRuns : List Char → Bool → List Char
  | [], _ => []
  | c :: cs, inRun =>
    if isSlugChar c then c :: subRuns cs false
    else if inRun then subRuns cs true
    else '-' :: subRuns cs true

/-- `s.strip("-")` on a character list. -/
def stripHyphens (l : List Char) : List Char := stripList (fun c => c = '-') l

/-- `slugify` from the source, on character lists. -/
def slugifyList (l : List Char) : List Char :=
  stripHyphens (subRuns (stripList isPyWs l |>.map lowerChar) false)

/-- `slugify(name)` (source lines 44-47). -/
def slugify (name : String) : String :=
  let l := slugifyList name.data
  if l = [] then "calendar" else String.mk l

/-! ### Timestamps

A naive pandas `Timestamp` at second granularity: seconds since
1970-01-01 00:00:00.  On `Int`, `/` and `%` are Euclidean division and
remainder, which agree with Python's floor division/modulo for the
positive divisors used here. -/

/-- `ts.date()` as a day number (days since 1970-01-01). -/
def tsDate (t : Int) : Int := t / 86400

/-- `is_midnight` (source lines 63-64): hour, minute and second all zero. -/
def isMidnight (t : Int) : Bool := t % 86400 = 0

/-- `pd.Timedelta(hours=h)` in seconds. -/
def hoursTd (h : Int) : Int := h * 3600

/-- `pd.Timedelta(days=d)` in seconds. -/
def daysTd (d : Int) : Int := d * 86400

/-- `DEFAULT_TIMED_DURATION_HOURS` (source line 31). -/
def DEFAULT_TIMED_DURATION_HOURS : Int := 1

/-- Build a timestamp from a day number and a time of day. -/
def mkTs (day h mi s : Int) : Int := day * 86400 + h * 3600 + mi * 60 + s

/-! ### Rendering timestamps the way Python's `str()` does

`make_uid` interpolates `Timestamp` values (and possibly `None`) into an
f-string; `str(Timestamp)` prints `YYYY-MM-DD HH:MM:SS`.  Day-number to
civil date conversion follows the standard proleptic-Gregorian algorithm. -/

/-- Civil (year, month, day) from a day number (days since 1970-01-01). -/
def civilFromDays (z0 : Int) : Int × Int × Int :=
  let z := z0 + 719468
  let era := z / 146097
  let doe := z - era * 146097
  let yoe := (doe - doe / 1460 + doe / 36524 - doe / 146096) / 365
  let y := yoe + era * 400
  let doy := doe - (365 * yoe + yoe / 4 - yoe / 100)
  let mp := (5 * doy + 2) / 153
  let d := doy - (153 * mp + 2) / 5 + 1
  let m := mp + (if mp < 10 then 3 else -9)
  (y + (if m ≤ 2 then 1 else 0), m, d)

/-- Decimal digits of a natural number (most significant first). -/
def natDigits (n : Nat) : List Char :=
  (Nat.toDigits 10 n)

/-- Zero-pad the decimal rendering of a nonnegative integer to `w` digits. -/
def padNum (w : Nat) (v : Int) : String :=
  let ds := natDigits v.toNat
  String.mk (List.replicate (w - ds.length) '0' ++ ds)

/-- `str(timestamp)`: `YYYY-MM-DD HH:MM:SS`. -/
def fmtTs (t : Int) : String :=
  let (y, m, d) := civilFromDays (tsDate t)
  let sod := (t % 86400).toNat
  padNum 4 y ++ "-" ++ padNum 2 m ++ "-" ++ padNum 2 d ++ " " ++
    padNum 2 (sod / 3600 : Nat) ++ ":" ++ padNum 2 (sod / 60 % 60 : Nat) ++ ":" ++
    padNum 2 (sod % 60 : Nat)

/-- `f"{v}"` for an optional timestamp: `str(None)` is `"None"`. -/
def fmtOptTs : Option Int → String
  | none => "None"
  | some t => fmtTs t

/-! ### MD5 (`hashlib.md5`, used by `make_uid`)

A byte-level implementation of RFC 1321 over `List Nat` (each entry a
byte), with 32-bit words as `Nat` reduced mod `2 ^ 32`. -/

/-- UTF-8 bytes of one character. -/
def utf8Char (c : Char) : List Nat :=
  let n := c.toNat
  if n < 128 then [n]
  else if n < 2048 then [192 ||| (n >>> 6), 128 ||| (n &&& 63)]
  else if n < 65536 then
    [224 ||| (n >>> 12), 128 ||| ((n >>> 6) &&& 63), 128 ||| (n &&& 63)]
  else
    [240 ||| (n >>> 18), 128 ||| ((n >>> 12) &&& 63),
     128 ||| ((n >>> 6) &&& 63), 128 ||| (n &&& 63)]

/-- `s.encode("utf-8")` as a byte list. -/
def encodeUtf8 (s : String) : List Nat := (s.data.map utf8Char).flatten

/-- The 64 MD5 sine-derived round constants `K`. -/
def md5K : List Nat :=
  [3614090360, 3905402710, 606105819, 3250441966, 4118548399, 1200080426,
   2821735955, 4249261313, 1770035416, 2336552879, 4294925233, 2304563134,
   1804603682, 4254626195, 2792965006, 1236535329, 4129170786, 3225465664,
   643717713, 3921069994, 3593408605, 38016083, 3634488961, 3889429448,
   568446438, 3275163606, 4107603335, 1163531501, 2850285829, 4243563512,
   1735328473, 2368359562, 4294588738, 2272392833, 1839030562, 4259657740,
   2763975236, 1272893353, 4139469664, 3200236656, 681279174, 3936430074,
   3572445317, 76029189, 3654602809, 3873151461, 530742520, 3299628645,
   4096336452, 1126891415, 2878612391, 4237533241, 1700485571, 2399980690,
   4293915773, 2240044497, 1873313359, 4264355552, 2734768916, 1309151649,
   4149444226, 3174756917, 718787259, 3951481745]

/-- The 64 MD5 per-round left-rotation amounts `s`. -/
def md5S : List Nat :=
  [7, 12, 17, 22, 7, 12, 17, 22, 7, 12, 17, 22, 7, 12, 17, 22,
   5, 9, 14, 20, 5, 9, 14, 20, 5, 9, 14, 20, 5, 9, 14, 20,
   4, 11, 16, 23, 4, 11, 16, 23, 4, 11, 16, 23, 4, 11, 16, 23,
   6, 10, 15, 21, 6, 10, 15, 21, 6, 10, 15, 21, 6, 10, 15, 21]

/-- 32-bit left rotation. -/
def rotl32 (x n : Nat) : Nat :=
  ((x <<< n) ||| (x >>> (32 - n))) % 4294967296

/-- 32-bit bitwise complement. -/
def not32 (x : Nat) : Nat := x ^^^ 4294967295

/-- MD5 round mixing function for round `i`. -/
def md5F (i b c d : Nat) : Nat :=
  if i < 16 then (b &&& c) ||| (not32 b &&& d)
  else if i < 32 then (d &&& b) ||| (not32 d &&& c)
  else if i < 48 then b ^^^ c ^^^ d
  else c ^^^ (b ||| not32 d)

/-- MD5 message-word index for round `i`. -/
def md5G (i : Nat) : Nat :=
  if i < 16 then i
  else if i < 32 then (5 * i + 1) % 16
  else if i < 48 then (3 * i + 5) % 16
  else (7 * i) % 16

/-- One MD5 round on the register quadruple. -/
def md5Round (msg : List Nat) (st : Nat × Nat × Nat × Nat) (i : Nat) :
    Nat × Nat × Nat × Nat :=
  let (a, b, c, d) := st
  let f := (md5F i b c d + a + md5K.getD i 0 + msg.getD (md5G i) 0) % 4294967296
  (d, (b + rotl32 f (md5S.getD i 0)) % 4294967296, b, c)

/-- Little-endian byte rendering of `v`, `n` bytes. -/
def leBytes (n v : Nat) : List Nat :=
  (List.range n).map (fun i => (v >>> (8 * i)) &&& 255)

/-- The 16 little-endian 32-bit words of one 64-byte chunk. -/
def chunkWords (chunk : List Nat) : List Nat :=
  (List.range 16).map (fun j =>
    chunk.getD (4 * j) 0 + chunk.getD (4 * j + 1) 0 * 256 +
    chunk.getD (4 * j + 2) 0 * 65536 + chunk.getD (4 * j + 3) 0 * 16777216)

/-- MD5 padding: a `0x80` byte, zeros to 56 mod 64, then the bit length
as 8 little-endian bytes. -/
def md5Pad (msg : List Nat) : List Nat :=
  msg ++ 128 :: List.replicate ((119 - msg.length % 64) % 64) 0 ++
    leBytes 8 (msg.length * 8 % 18446744073709551616)

/-- Split a byte list into 64-byte chunks (structural recursion on a fuel
bound so that the kernel can evaluate it; the fuel never runs out because
each step consumes 64 bytes). -/
def toChunksAux : Nat → List Nat → List (List Nat)
  | _, [] => []
  | 0, _ :: _ => []
  | fuel + 1, l => l.take 64 :: toChunksAux fuel (l.drop 64)

/-- Split a byte list into 64-byte chunks. -/
def toChunks (l : List Nat) : List (List Nat) := toChunksAux (l.length + 1) l

/-- Process one chunk: run the 64 rounds and add the result into the state. -/
def md5Chunk (st : Nat × Nat × Nat × Nat) (chunk : List Nat) :
    Nat × Nat × Nat × Nat :=
  let msg := chunkWords chunk
  let (a0, b0, c0, d0) := st
  let (a, b, c, d) := (List.range 64).foldl (md5Round msg) st
  ((a0 + a) % 4294967296, (b0 + b) % 4294967296,
   (c0 + c) % 4294967296, (d0 + d) % 4294967296)

/-- MD5 digest (16 bytes) of a byte list. -/
def md5Bytes (msg : List Nat) : List Nat :=
  let (a, b, c, d) :=
    (toChunks (md5Pad msg)).foldl md5Chunk
      (1732584193, 4023233417, 2562383102, 271733878)
  leBytes 4 a ++ leBytes 4 b ++ leBytes 4 c ++ leBytes 4 d

/-- One lowercase hex digit. -/
def hexDigit (n : Nat) : Char :=
  if n < 10 then Char.ofNat (48 + n) else Char.ofNat (87 + n)

/-- Lowercase hex rendering of a byte list. -/
def toHex (bs : List Nat) : String :=
  String.mk ((bs.map (fun b => [hexDigit (b / 16), hexDigit (b % 16)])).flatten)

/-- `hashlib.md5(s.encode("utf-8")).hexdigest()`. -/
def md5hex (s : String) : String := toHex (md5Bytes (encodeUtf8 s))

/-- `make_uid` (source lines 66-68): MD5 over `f"{title}|{start}|{end}|{extra}"`
plus a fixed domain suffix. -/
def make_uid (title start end_ extra : String) : String :=
  md5hex (title ++ "|" ++ start ++ "|" ++ end_ ++ "|" ++ extra) ++ "@dynamic-cal"

/-! ### Rows and events (the row loop, source lines 158-230) -/

/-- One input row as the row loop sees it after column resolution and the
`clean_str` pass: `calendar`, `title`, `location`, `uid` are cleaned
strings (`""` doubles as "column absent" for the optional text fields);
`start?`/`end?` are the parsed timestamps (`none` = absent or
unparseable); `allday?`/`transp?` are `str(cell)` when the corresponding
column is resolved, `none` when it is absent. -/
structure Row where
  calendar : String
  title : String
  start? : Option Int
  end? : Option Int
  allday? : Option String
  transp? : Option String
  uid : String
  location : String
  description : String
  url : String
deriving DecidableEq, Repr

/-- Event timing: an all-day event holds exclusive-end day numbers, a
timed event holds begin/end timestamps. -/
inductive Timing where
  | allDay (beginDay endDay : Int)
  | timed (begin_ end_ : Int)
deriving DecidableEq, Repr

/-- A normalized event as handed to the ICS serializer: `none` in an
optional field means the attribute is absent from the output. -/
structure Event where
  title : String
  timing : Timing
  location : Option String
  description : Option String
  url : Option String
  uid : String
  transparent : Option Bool
deriving DecidableEq, Repr

/-- `v.strip().lower() in ("true", "1", "yes", "y")` (source lines 184-185,
225-226). -/
def truthy (s : String) : Bool :=
  let v := pyLower (pyStrip s)
  v = "true" || v = "1" || v = "yes" || v = "y"

/-- All-day classification (source lines 181-190): explicit truthy
all-day cell, else inferred when the start exists and is midnight and the
end is absent or midnight. -/
def alldayFlag (allday? : Option String) (start? end? : Option Int) : Bool :=
  let explicit := match allday? with
    | some v => truthy v
    | none => false
  if explicit then true
  else
    match start? with
    | some s => isMidnight s && (match end? with
        | none => true
        | some e => isMidnight e)
    | none => false

/-- `clean_str(...) or None` for optional text attributes
(source lines 216-218). -/
def optStr (s : String) : Option String := if s = "" then none else some s

/-- Finalize one row into an event, given that the title check passed.
Returns `none` exactly when both start and end are unresolved (source
lines 177-179); otherwise mirrors lines 181-226, including the local
`start_dt`/`end_dt` values that feed `make_uid`. -/
def buildEvent (r : Row) : Option Event :=
  match r.start?, r.end? with
  | none, none => none
  | s?, e? =>
    let ad := alldayFlag r.allday? s? e?
    -- local start_dt after the branch-specific defaulting
    let sLoc : Int :=
      if ad then
        match s?, e? with
        | some s, _ => s
        | none, some e => e
        | none, none => 0  -- unreachable: the outer match excluded this case
      else
        match s?, e? with
        | some s, _ => s
        | none, some e => e - hoursTd DEFAULT_TIMED_DURATION_HOURS
        | none, none => 0  -- unreachable
    -- local end_dt after the branch (reassigned only in the timed branch)
    let eLoc : Option Int :=
      if ad then e?
      else
        match e? with
        | some e => if e ≤ sLoc then some (sLoc + hoursTd DEFAULT_TIMED_DURATION_HOURS) else some e
        | none => some (sLoc + hoursTd DEFAULT_TIMED_DURATION_HOURS)
    let timing :=
      if ad then
        Timing.allDay (tsDate sLoc)
          (match e? with
           | none => tsDate (sLoc + daysTd 1)
           | some e => if tsDate e ≤ tsDate sLoc then tsDate (sLoc + daysTd 1) else tsDate e)
      else
        Timing.timed sLoc ((eLoc).getD 0)
    let location := optStr r.location
    let uid := if r.uid ≠ "" then r.uid
      else make_uid r.title (fmtTs sLoc) (fmtOptTs eLoc) (location.getD "")
    some { title := r.title
           timing := timing
           location := location
           description := optStr r.description
           url := optStr r.url
           uid := uid
           transparent := match r.transp? with
             | some v => some (truthy v)
             | none => none }

/-- The per-row body of the loop (source lines 158-230): drop the row when
the cleaned title is empty, otherwise build the event. -/
def processRow (r : Row) : Option Event :=
  if r.title = "" then none else buildEvent r

/-! ### The build loop (source lines 136-259) -/

/-- `list(dict.fromkeys(...))` (source line 140): distinct values in
first-seen order.  `seen` accumulates the values already emitted. -/
def firstSeenAux (seen : List String) : List String → List String
  | [] => []
  | x :: xs =>
    if x ∈ seen then firstSeenAux seen xs
    else x :: firstSeenAux (x :: seen) xs

/-- `cal_order = list(dict.fromkeys(df[col_calendar].tolist()))`. -/
def firstSeen (l : List String) : List String := firstSeenAux [] l

/-- The calendar names the loop actually processes: `cal_order` minus the
falsy (empty) names skipped by `if not cal_name: continue`
(source lines 146-148). -/
def calendarsOf (rows : List Row) : List String :=
  (firstSeen (rows.map (·.calendar))).filter (fun n => n ≠ "")

/-- The events of one calendar's feed, in input row order
(`subset.iterrows()` preserves the row order of the frame). -/
def feedEvents (rows : List Row) (n : String) : List Event :=
  (rows.filter (fun r => r.calendar = n)).filterMap processRow

/-- `r.endswith("\x7d")` for the one-character suffix used at source
line 235: the last character is a closing brace. -/
def endsWithBrace (s : String) : Bool := s.data.getLast? = some '\x7d'

/-- `rel_ics` (source lines 234-236), including the vestigial trailing
brace strip which never fires for `.ics` names. -/
def relIcs (slug : String) : String :=
  let r := "/calendars/" ++ slug ++ ".ics"
  if endsWithBrace r then String.mk (r.data.dropLast) else r

/-- One manifest entry (source line 245). -/
structure ManifestEntry where
  name : String
  slug : String
  ics : String
deriving DecidableEq, Repr

/-- The in-memory manifest list after the calendar loop: one entry per
processed calendar, appended unconditionally (source lines 232-247). -/
def manifestOf (rows : List Row) : List ManifestEntry :=
  (calendarsOf rows).map (fun n => ⟨n, slugify n, relIcs (slugify n)⟩)

/-- `total_events` after the loop (source lines 141, 230). -/
def totalEvents (rows : List Row) : Nat :=
  ((calendarsOf rows).map (fun n => (feedEvents rows n).length)).sum

/-- The build outcome (source lines 256-263): `SystemExit(1)` when no
events were produced, otherwise the manifest that gets written. -/
def build (rows : List Row) : Except Nat (List ManifestEntry) :=
  if totalEvents rows = 0 then Except.error 1 else Except.ok (manifestOf rows)

/-! ### Spec-described variants, for comparison with the code

These two definitions follow the specification's words rather than the
source, so that divergences can be exhibited as theorems. -/

/-- The spec's all-day classification: "an event is all-day when its start
(if present) is exactly midnight and its end (if present) is also exactly
midnight or absent" — note the `(if present)` on the start, where the code
requires the start to exist. -/
def alldaySpecFlag (allday? : Option String) (start? end? : Option Int) : Bool :=
  let explicit := match allday? with
    | some v => truthy v
    | none => false
  if explicit then true
  else
    (match start? with
     | some s => isMidnight s
     | none => true) &&
    (match end? with
     | some e => isMidnight e
     | none => true)

/-- The spec's tri-state free/busy resolution. -/
inductive TranspSpec where
  | free
  | busy
  | unspecified
deriving DecidableEq, Repr

/-- The spec's `transparent` resolution: tokens `{true,1,yes,y,free,
transparent}` → free, `{false,0,no,n,busy,opaque}` → busy, anything else
(including an absent column) → unspecified. -/
def transpSpecOf (cell? : Option String) : TranspSpec :=
  match cell? with
  | none => TranspSpec.unspecified
  | some s =>
    let v := pyLower (pyStrip s)
    if v = "true" || v = "1" || v = "yes" || v = "y" || v = "free" || v = "transparent" then
      TranspSpec.free
    else if v = "false" || v = "0" || v = "no" || v = "n" || v = "busy" || v = "opaque" then
      TranspSpec.busy
    else TranspSpec.unspecified

/-- How the tri-state shows up on the wire: free ↦ `TRANSP:TRANSPARENT`,
busy ↦ `TRANSP:OPAQUE`, unspecified ↦ attribute omitted. -/
def transpSpecToAttr : TranspSpec → Option Bool
  | TranspSpec.free => some true
  | TranspSpec.busy => some false
  | TranspSpec.unspecified => none

/-! ### Concrete rows used by witnesses and counterexamples
(day 20332 = 2025-09-01) -/

/-- A row with every optional cell absent, to be specialised. -/
def blankRow : Row :=
  { calendar := "Team", title := "T", start? := none, «end?» := none,
    allday? := none, transp? := none, uid := "", location := "",
    description := "", url := "" }

/-- `{cal:"Team", title:"Standup", start:"2025-09-01 09:00", end:"2025-09-01 09:00"}`. -/
def rowStandup : Row :=
  { blankRow with
    title := "Standup"
    start? := some (mkTs 20332 9 0 0)
    «end?» := some (mkTs 20332 9 0 0) }

/-- `{cal:"Team", title:"Offsite", start:"2025-09-01 00:00:00"}`, no end. -/
def rowOffsiteNoEnd : Row :=
  { blankRow with
    title := "Offsite"
    start? := some (mkTs 20332 0 0 0) }

/-- Like `rowOffsiteNoEnd` but with the end written out as
`2025-09-02 00:00:00`; normalizes to the same all-day event. -/
def rowOffsiteEnd : Row :=
  { blankRow with
    title := "Offsite"
    start? := some (mkTs 20332 0 0 0)
    «end?» := some (mkTs 20333 0 0 0) }

/-- A valid-looking row whose calendar name is empty. -/
def rowEmptyCal : Row :=
  { blankRow with
    calendar := ""
    title := "X"
    start? := some (mkTs 20332 9 0 0) }

/-- A row with no start and a midnight end. -/
def rowMidnightEndOnly : Row :=
  { blankRow with
    title := "X"
    «end?» := some (mkTs 20332 0 0 0) }

/-- An Ops row that fails row-level validation (empty title). -/
def rowOpsNoTitle : Row :=
  { blankRow with
    calendar := "Ops"
    title := ""
    start? := some (mkTs 20332 9 0 0) }

/-- A valid HR row. -/
def rowHR : Row :=
  { blankRow with
    calendar := "HR"
    title := "Sync"
    start? := some (mkTs 20332 9 0 0) }

/-- The event `rowStandup` normalizes to. -/
def evStandup : Event :=
  { title := "Standup"
    timing := Timing.timed (mkTs 20332 9 0 0) (mkTs 20332 10 0 0)
    location := none
    description := none
    url := none
    uid := "397087a65b06453e25546056ad3a5b30@dynamic-cal"
    transparent := none }

/-- The event `rowOffsiteNoEnd` normalizes to. -/
def evOffsiteNoEnd : Event :=
  { title := "Offsite"
    timing := Timing.allDay 20332 20333
    location := none
    description := none
    url := none
    uid := "692de59fb47d91a0d7863f36ea164110@dynamic-cal"
    transparent := none }

/-! ### C1: end strictly after begin -/

/-- Whether the timed branch will default the end: the raw end is missing
or not strictly after the (possibly back-filled) start. -/
def timedEndDefaulted (s? e? : Option Int) : Bool :=
  match s?, e? with
  | _, none => true
  | none, some _ => false
  | some s, some e => e ≤ s

/-! ### C7: transparent resolution -/

/-- A row whose transparent cell is `"free"`. -/
def rowTranspFree : Row :=
  { blankRow with
    start? := some (mkTs 20332 9 0 0)
    transp? := some "free" }

/-- A row whose transparent cell is `"purple"`. -/
def rowTranspOther : Row :=
  { blankRow with
    start? := some (mkTs 20332 9 0 0)
    transp? := some "purple" }

/-- A row whose transparent cell is `"true"`. -/
def rowTranspTrue : Row :=
  { blankRow with
    start? := some (mkTs 20332 9 0 0)
    transp? := some "true" }

/-! ### C8: UID resolution -/

/-- The local `start_dt` value at the point `make_uid` is called
(source lines 197-213): back-filled from the end in both branches, by the
raw end for all-day rows and by end minus the default duration for timed
rows.  (The `none, none` case is unreachable: such rows are dropped.) -/
def startLocal (r : Row) : Int :=
  if alldayFlag r.allday? r.start? r.end? then
    match r.start?, r.end? with
    | some s, _ => s
    | none, some e => e
    | none, none => 0
  else
    match r.start?, r.end? with
    | some s, _ => s
    | none, some e => e - hoursTd DEFAULT_TIMED_DURATION_HOURS
    | none, none => 0

/-- The local `end_dt` value at the point `make_uid` is called: left as
the raw end for all-day rows (possibly `None`), finalized for timed rows
(source lines 206-213). -/
def endLocal (r : Row) : Option Int :=
  if alldayFlag r.allday? r.start? r.end? then r.end?
  else
    match r.end? with
    | some e =>
      if e ≤ startLocal r then some (startLocal r + hoursTd DEFAULT_TIMED_DURATION_HOURS)
      else some e
    | none => some (startLocal r + hoursTd DEFAULT_TIMED_DURATION_HOURS)

/-- A row carrying its own UID cell. -/
def rowWithUid : Row :=
  { blankRow with
    title := "Review"
    start? := some (mkTs 20332 9 0 0)
    uid := "evt-1" }

example : slugify "Academic Calendar - Staff" = "academic-calendar-staff" := by decide
example : slugify "  Invalid!@#Chars  " = "invalid-chars" := by decide
example : slugify "" = "calendar" := by decide
example : slugify "--Ops--" = "ops" := by decide

example : fmtTs (mkTs 20332 9 0 0) = "2025-09-01 09:00:00" := by decide
example : fmtTs (mkTs 0 0 0 0) = "1970-01-01 00:00:00" := by decide

example : md5hex "" = "d41d8cd98f00b204e9800998ecf8427e" := by decide
example : md5hex "abc" = "900150983cd24fb0d6963f7d28e17f72" := by decide

/-! ### Supporting lemmas -/

theorem tsDate_add_day (t : Int) : tsDate (t + daysTd 1) = tsDate t + 1 := by
  unfold tsDate daysTd
  omega

theorem c2_timed_finalization (r : Row) (ev : Event)
    (hp : processRow r = some ev)
    (had : alldayFlag r.allday? r.start? r.end? = false) :
    (∀ e0, r.start? = none → r.end? = some e0 →
        ev.timing = Timing.timed (e0 - hoursTd DEFAULT_TIMED_DURATION_HOURS) e0) ∧
    (∀ s0 e0, r.start? = some s0 → r.end? = some e0 → s0 < e0 →
        ev.timing = Timing.timed s0 e0) ∧
    (∀ s0, r.start? = some s0 →
        (r.end? = none ∨ ∃ e0, r.end? = some e0 ∧ e0 ≤ s0) →
        ev.timing = Timing.timed s0 (s0 + hoursTd DEFAULT_TIMED_DURATION_HOURS)) := by
  obtain ⟨cal, title, s?, e?, ad?, tr?, uid0, loc, desc, url⟩ := r
  dsimp only at hp had ⊢
  simp only [processRow] at hp
  split at hp
  · simp at hp
  · cases s? with
    | none =>
      cases e? with
      | none =>
        simp only [buildEvent] at hp
        exact Option.noConfusion hp
      | some e0 =>
        simp only [buildEvent, had] at hp
        rw [Option.some_inj] at hp
        subst hp
        refine ⟨?_, ?_, ?_⟩
        · intro e1 _ he1
          obtain rfl : e0 = e1 := by injection he1
          simp only [had, Bool.false_eq_true, if_false]
          rw [if_neg (by simp [hoursTd, DEFAULT_TIMED_DURATION_HOURS])]
          simp
        · intro s1 e1 hs1 _ _
          exact absurd hs1 (by simp)
        · intro s1 hs1 _
          exact absurd hs1 (by simp)
    | some s0 =>
      cases e? with
      | none =>
        simp only [buildEvent, had] at hp
        rw [Option.some_inj] at hp
        subst hp
        refine ⟨?_, ?_, ?_⟩
        · intro e1 hn _
          exact absurd hn (by simp)
        · intro s1 e1 _ he1 _
          exact absurd he1 (by simp)
        · intro s1 hs1 _
          obtain rfl : s0 = s1 := by injection hs1
          simp [had]
      | some e0 =>
        simp only [buildEvent, had] at hp
        rw [Option.some_inj] at hp
        subst hp
        refine ⟨?_, ?_, ?_⟩
        · intro e1 hn _
          exact absurd hn (by simp)
        · intro s1 e1 hs1 he1 hlt
          obtain rfl : s0 = s1 := by injection hs1
          obtain rfl : e0 = e1 := by injection he1
          simp only [had, Bool.false_eq_true, if_false]
          rw [if_neg (not_le.mpr hlt)]
          simp
        · intro s1 hs1 hend
          obtain rfl : s0 = s1 := by injection hs1
          rcases hend with hend | ⟨e1, he1, hle⟩
          · exact absurd hend (by simp)
          · obtain rfl : e0 = e1 := by injection he1
            simp only [had, Bool.false_eq_true, if_false]
            rw [if_pos hle]
            simp

/-- Witness for C2 at the spec's end-to-end scenario: `rowStandup`
(start == end at 2025-09-01 09:00) is classified timed and its end is
forced to start plus the default duration, i.e. 2025-09-01 10:00. -/
theorem c2_timed_finalization_witness :
    processRow rowStandup = some evStandup ∧
    evStandup.timing = Timing.timed (mkTs 20332 9 0 0)
      (mkTs 20332 9 0 0 + hoursTd DEFAULT_TIMED_DURATION_HOURS) := by
  have h : processRow rowStandup = some evStandup := by decide
  refine ⟨h, ?_⟩
  exact (c2_timed_finalization rowStandup evStandup h (by decide)).2.2
    (mkTs 20332 9 0 0) (by decide)
    (Or.inr ⟨mkTs 20332 9 0 0, by decide, le_refl _⟩)

/-! ### C3: all-day finalization -/

/-- C3: For every row finalized as all-day: if start is missing, start
defaults to end's date; if the raw end is missing or its date is not
after start's date, end is set to start's date plus one day; a row with a
midnight start and no end yields an all-day event spanning exactly one
day.  (Source lines 195-205.) -/
theorem c3_allday_finalization (r : Row) (ev : Event)
    (hp : processRow r = some ev)
    (had : alldayFlag r.allday? r.start? r.end? = true) :
    (∀ e0, r.start? = none → r.end? = some e0 →
        ev.timing = Timing.allDay (tsDate e0) (tsDate e0 + 1)) ∧
    (∀ s0 e0, r.start? = some s0 → r.end? = some e0 → tsDate s0 < tsDate e0 →
        ev.timing = Timing.allDay (tsDate s0) (tsDate e0)) ∧
    (∀ s0, r.start? = some s0 →
        (r.end? = none ∨ ∃ e0, r.end? = some e0 ∧ tsDate e0 ≤ tsDate s0) →
        ev.timing = Timing.allDay (tsDate s0) (tsDate s0 + 1)) := by
  obtain ⟨cal, title, s?, e?, ad?, tr?, uid0, loc, desc, url⟩ := r
  dsimp only at hp had ⊢
  simp only [processRow] at hp
  split at hp
  · simp at hp
  · cases s? with
    | none =>
      cases e? with
      | none =>
        simp only [buildEvent] at hp
        exact Option.noConfusion hp
      | some e0 =>
        simp only [buildEvent, had] at hp
        rw [Option.some_inj] at hp
        subst hp
        refine ⟨?_, ?_, ?_⟩
        · intro e1 _ he1
          obtain rfl : e0 = e1 := by injection he1
          simp only [had, if_true]
          rw [if_pos (le_refl _), tsDate_add_day]
        · intro s1 e1 hs1 _ _
          exact absurd hs1 (by simp)
        · intro s1 hs1 _
          exact absurd hs1 (by simp)
    | some s0 =>
      cases e? with
      | none =>
        simp only [buildEvent, had] at hp
        rw [Option.some_inj] at hp
        subst hp
        refine ⟨?_, ?_, ?_⟩
        · intro e1 hn _
          exact absurd hn (by simp)
        · intro s1 e1 _ he1 _
          exact absurd he1 (by simp)
        · intro s1 hs1 _
          obtain rfl : s0 = s1 := by injection hs1
          simp only [had, if_true]
          rw [tsDate_add_day]
      | some e0 =>
        simp only [buildEvent, had] at hp
        rw [Option.some_inj] at hp
        subst hp
        refine ⟨?_, ?_, ?_⟩
        · intro e1 hn _
          exact absurd hn (by simp)
        · intro s1 e1 hs1 he1 hlt
          obtain rfl : s0 = s1 := by injection hs1
          obtain rfl : e0 = e1 := by injection he1
          simp only [had, if_true]
          rw [if_neg (not_le.mpr hlt)]
        · intro s1 hs1 hend
          obtain rfl : s0 = s1 := by injection hs1
          rcases hend with hend | ⟨e1, he1, hle⟩
          · exact absurd hend (by simp)
          · obtain rfl : e0 = e1 := by injection he1
            simp only [had, if_true]
            rw [if_pos hle, tsDate_add_day]

/-- Witness for C3 at the spec's end-to-end scenario: `rowOffsiteNoEnd`
(midnight start 2025-09-01, no end) yields one all-day event spanning
2025-09-01 to 2025-09-02 (exclusive end). -/
theorem c3_allday_finalization_witness :
    processRow rowOffsiteNoEnd = some evOffsiteNoEnd ∧
    evOffsiteNoEnd.timing =
      Timing.allDay (tsDate (mkTs 20332 0 0 0)) (tsDate (mkTs 20332 0 0 0) + 1) ∧
    evOffsiteNoEnd.timing = Timing.allDay 20332 20333 := by
  have h : processRow rowOffsiteNoEnd = some evOffsiteNoEnd := by decide
  refine ⟨h, ?_, by decide⟩
  exact (c3_allday_finalization rowOffsiteNoEnd evOffsiteNoEnd h (by decide)).2.2
    (mkTs 20332 0 0 0) (by decide) (Or.inl (by decide))

/-- C1: For every row that yields an event, end is strictly after begin:
all-day events span at least one whole day (exclusive end), timed events
have begin < end, and a timed event whose end was defaulted ends exactly
the default duration after its begin.  (Source lines 195-213.) -/
theorem c1_end_strictly_after_begin (r : Row) (ev : Event)
    (hp : processRow r = some ev) :
    (∀ b e, ev.timing = Timing.timed b e → b < e) ∧
    (∀ b e, ev.timing = Timing.allDay b e → b + 1 ≤ e) ∧
    (alldayFlag r.allday? r.start? r.end? = false →
      timedEndDefaulted r.start? r.end? = true →
      ∀ b e, ev.timing = Timing.timed b e →
        e = b + hoursTd DEFAULT_TIMED_DURATION_HOURS) := by
  obtain ⟨cal, title, s?, e?, ad?, tr?, uid0, loc, desc, url⟩ := r
  dsimp only at hp ⊢
  simp only [processRow] at hp
  split at hp
  · simp at hp
  · rename_i hT
    cases hads : alldayFlag ad? s? e? with
    | true =>
      have h3 := c3_allday_finalization
        ⟨cal, title, s?, e?, ad?, tr?, uid0, loc, desc, url⟩ ev
        (by simp only [processRow, if_neg hT]; exact hp) hads
      refine ⟨?_, ?_, ?_⟩
      · intro b e heq
        exfalso
        cases s? with
        | none =>
          cases e? with
          | none => simp [buildEvent] at hp
          | some e0 =>
            have := (h3.1 e0 rfl rfl)
            rw [heq] at this
            exact Timing.noConfusion this
        | some s0 =>
          cases e? with
          | none =>
            have := h3.2.2 s0 rfl (Or.inl rfl)
            rw [heq] at this
            exact Timing.noConfusion this
          | some e0 =>
            rcases le_or_lt (tsDate e0) (tsDate s0) with hle | hlt
            · have := h3.2.2 s0 rfl (Or.inr ⟨e0, rfl, hle⟩)
              rw [heq] at this
              exact Timing.noConfusion this
            · have := h3.2.1 s0 e0 rfl rfl hlt
              rw [heq] at this
              exact Timing.noConfusion this
      · intro b e heq
        cases s? with
        | none =>
          cases e? with
          | none => simp [buildEvent] at hp
          | some e0 =>
            have := h3.1 e0 rfl rfl
            rw [heq] at this
            obtain ⟨rfl, rfl⟩ : b = tsDate e0 ∧ e = tsDate e0 + 1 := by
              constructor <;> injection this <;> omega
            omega
        | some s0 =>
          cases e? with
          | none =>
            have := h3.2.2 s0 rfl (Or.inl rfl)
            rw [heq] at this
            obtain ⟨rfl, rfl⟩ : b = tsDate s0 ∧ e = tsDate s0 + 1 := by
              constructor <;> injection this <;> omega
            omega
          | some e0 =>
            rcases le_or_lt (tsDate e0) (tsDate s0) with hle | hlt
            · have := h3.2.2 s0 rfl (Or.inr ⟨e0, rfl, hle⟩)
              rw [heq] at this
              obtain ⟨rfl, rfl⟩ : b = tsDate s0 ∧ e = tsDate s0 + 1 := by
                constructor <;> injection this <;> omega
              omega
            · have := h3.2.1 s0 e0 rfl rfl hlt
              rw [heq] at this
              obtain ⟨rfl, rfl⟩ : b = tsDate s0 ∧ e = tsDate e0 := by
                constructor <;> injection this <;> omega
              omega
      · intro hfalse
        exact absurd hfalse (by simp)
    | false =>
      have h2 := c2_timed_finalization
        ⟨cal, title, s?, e?, ad?, tr?, uid0, loc, desc, url⟩ ev
        (by simp only [processRow, if_neg hT]; exact hp) hads
      cases s? with
      | none =>
        cases e? with
        | none => simp [buildEvent] at hp
        | some e0 =>
          have ht := h2.1 e0 rfl rfl
          refine ⟨?_, ?_, ?_⟩
          · intro b e heq
            rw [heq] at ht
            obtain ⟨rfl, rfl⟩ : b = e0 - hoursTd DEFAULT_TIMED_DURATION_HOURS ∧ e = e0 := by
              constructor <;> injection ht <;> omega
            simp [hoursTd, DEFAULT_TIMED_DURATION_HOURS]
          · intro b e heq
            rw [heq] at ht
            exact Timing.noConfusion ht
          · intro _ hdef
            simp [timedEndDefaulted] at hdef
      | some s0 =>
        cases e? with
        | none =>
          have ht := h2.2.2 s0 rfl (Or.inl rfl)
          refine ⟨?_, ?_, ?_⟩
          · intro b e heq
            rw [heq] at ht
            obtain ⟨rfl, rfl⟩ :
                b = s0 ∧ e = s0 + hoursTd DEFAULT_TIMED_DURATION_HOURS := by
              constructor <;> injection ht <;> omega
            simp [hoursTd, DEFAULT_TIMED_DURATION_HOURS]
          · intro b e heq
            rw [heq] at ht
            exact Timing.noConfusion ht
          · intro _ _ b e heq
            rw [heq] at ht
            injection ht <;> omega
        | some e0 =>
          rcases le_or_lt e0 s0 with hle | hlt
          · have ht := h2.2.2 s0 rfl (Or.inr ⟨e0, rfl, hle⟩)
            refine ⟨?_, ?_, ?_⟩
            · intro b e heq
              rw [heq] at ht
              obtain ⟨rfl, rfl⟩ :
                  b = s0 ∧ e = s0 + hoursTd DEFAULT_TIMED_DURATION_HOURS := by
                constructor <;> injection ht <;> omega
              simp [hoursTd, DEFAULT_TIMED_DURATION_HOURS]
            · intro b e heq
              rw [heq] at ht
              exact Timing.noConfusion ht
            · intro _ _ b e heq
              rw [heq] at ht
              injection ht <;> omega
          · have ht := h2.2.1 s0 e0 rfl rfl hlt
            refine ⟨?_, ?_, ?_⟩
            · intro b e heq
              rw [heq] at ht
              obtain ⟨rfl, rfl⟩ : b = s0 ∧ e = e0 := by
                constructor <;> injection ht <;> omega
              omega
            · intro b e heq
              rw [heq] at ht
              exact Timing.noConfusion ht
            · intro _ hdef _ _ _
              simp [timedEndDefaulted] at hdef
              omega

/-- Witness for C1: the all-day event of `rowOffsiteNoEnd` spans a full
day and the timed event of `rowStandup` (whose end was defaulted) ends
exactly one hour after it begins. -/
theorem c1_end_strictly_after_begin_witness :
    ((processRow rowOffsiteNoEnd = some evOffsiteNoEnd) ∧
      (20332 : Int) + 1 ≤ 20333) ∧
    ((processRow rowStandup = some evStandup) ∧
      mkTs 20332 10 0 0 = mkTs 20332 9 0 0 + hoursTd DEFAULT_TIMED_DURATION_HOURS) := by
  have h1 : processRow rowOffsiteNoEnd = some evOffsiteNoEnd := by decide
  have h2 : processRow rowStandup = some evStandup := by decide
  refine ⟨⟨h1, ?_⟩, ⟨h2, ?_⟩⟩
  · exact (c1_end_strictly_after_begin rowOffsiteNoEnd evOffsiteNoEnd h1).2.1
      20332 20333 (by decide)
  · exact (c1_end_strictly_after_begin rowStandup evStandup h2).2.2 (by decide) (by decide)
      (mkTs 20332 9 0 0) (mkTs 20332 10 0 0) (by decide)

/-! ### C4: all-day classification -/

/-- The row whose classification separates the code from the spec's
words: no start, midnight end. -/
theorem c4_counterexample :
    alldayFlag none none (some (mkTs 20332 0 0 0)) = false ∧
    alldaySpecFlag none none (some (mkTs 20332 0 0 0)) = true ∧
    (processRow rowMidnightEndOnly).map Event.timing =
      some (Timing.timed (mkTs 20332 0 0 0 - hoursTd DEFAULT_TIMED_DURATION_HOURS)
        (mkTs 20332 0 0 0)) := by
  refine ⟨by decide, by decide, by decide⟩

/-- C4 (amended): an event is classified all-day exactly when the all-day
cell holds a truthy token, or, absent such a token, the start is present
and exactly midnight and the end is absent or exactly midnight.  (The
start must be present: a row with only a midnight end stays timed.)
(Source lines 63-64, 181-190.) -/
theorem c4_allday_classification (r : Row) (ev : Event)
    (hp : processRow r = some ev) :
    (∃ b e, ev.timing = Timing.allDay b e) ↔
      ((∃ v, r.allday? = some v ∧ truthy v = true) ∨
        (∃ s, r.start? = some s ∧ isMidnight s = true ∧
          (r.end? = none ∨ ∃ e, r.end? = some e ∧ isMidnight e = true))) := by
  obtain ⟨cal, title, s?, e?, ad?, tr?, uid0, loc, desc, url⟩ := r
  dsimp only at hp ⊢
  simp only [processRow] at hp
  split at hp
  · simp at hp
  · have hiff : alldayFlag ad? s? e? = true ↔
        ((∃ v, ad? = some v ∧ truthy v = true) ∨
          (∃ s, s? = some s ∧ isMidnight s = true ∧
            (e? = none ∨ ∃ e, e? = some e ∧ isMidnight e = true))) := by
      unfold alldayFlag
      cases ad? with
      | none =>
        simp only [Option.some.injEq]
        cases s? with
        | none => simp
        | some s0 =>
          cases e? with
          | none => simp
          | some e0 => simp
      | some v0 =>
        cases hv : truthy v0 with
        | true => simp [hv]
        | false =>
          simp only [hv, if_false]
          cases s? with
          | none => simp [hv]
          | some s0 =>
            cases e? with
            | none => simp [hv]
            | some e0 => simp [hv]
    rw [← hiff]
    cases hads : alldayFlag ad? s? e? with
    | true =>
      simp only [eq_self_iff_true, iff_true]
      cases s? with
      | none =>
        cases e? with
        | none => simp [buildEvent] at hp
        | some e0 =>
          simp only [buildEvent, hads, if_true] at hp
          rw [Option.some_inj] at hp
          subst hp
          exact ⟨_, _, rfl⟩
      | some s0 =>
        cases e? with
        | none =>
          simp only [buildEvent, hads, if_true] at hp
          rw [Option.some_inj] at hp
          subst hp
          exact ⟨_, _, rfl⟩
        | some e0 =>
          simp only [buildEvent, hads, if_true] at hp
          rw [Option.some_inj] at hp
          subst hp
          exact ⟨_, _, rfl⟩
    | false =>
      simp only [Bool.false_eq_true, iff_false]
      rintro ⟨b, e, heq⟩
      cases s? with
      | none =>
        cases e? with
        | none => simp [buildEvent] at hp
        | some e0 =>
          simp only [buildEvent, hads] at hp
          rw [Option.some_inj] at hp
          subst hp
          simp only [hads, Bool.false_eq_true, if_false] at heq
          exact Timing.noConfusion heq
      | some s0 =>
        cases e? with
        | none =>
          simp only [buildEvent, hads] at hp
          rw [Option.some_inj] at hp
          subst hp
          simp only [hads, Bool.false_eq_true, if_false] at heq
          exact Timing.noConfusion heq
        | some e0 =>
          simp only [buildEvent, hads] at hp
          rw [Option.some_inj] at hp
          subst hp
          simp only [hads, Bool.false_eq_true, if_false] at heq
          exact Timing.noConfusion heq

/-- Witness for C4: the midnight-start row `rowOffsiteNoEnd` is classified
all-day via the inferred branch. -/
theorem c4_allday_classification_witness :
    processRow rowOffsiteNoEnd = some evOffsiteNoEnd ∧
    (∃ b e, evOffsiteNoEnd.timing = Timing.allDay b e) := by
  have h : processRow rowOffsiteNoEnd = some evOffsiteNoEnd := by decide
  refine ⟨h, ?_⟩
  exact (c4_allday_classification rowOffsiteNoEnd evOffsiteNoEnd h).mpr
    (Or.inr ⟨mkTs 20332 0 0 0, by decide, by decide, Or.inl (by decide)⟩)

/-- The claim's token tables are not the code's: a `"free"` cell yields a
busy event (`TRANSP:OPAQUE`) where the claim says free, and a `"purple"`
cell also yields busy where the claim says the attribute is omitted. -/
theorem c7_counterexample :
    (processRow rowTranspFree).map Event.transparent = some (some false) ∧
    transpSpecToAttr (transpSpecOf (some "free")) = some true ∧
    (processRow rowTranspOther).map Event.transparent = some (some false) ∧
    transpSpecToAttr (transpSpecOf (some "purple")) = none := by
  refine ⟨by decide, by decide, by decide, by decide⟩

/-- `truthy` holds exactly on the four case-insensitive tokens. -/
theorem truthy_iff (v : String) :
    truthy v = true ↔
      pyLower (pyStrip v) ∈ (["true", "1", "yes", "y"] : List String) := by
  simp only [truthy, Bool.or_eq_true, decide_eq_true_eq, List.mem_cons,
    List.mem_singleton, List.not_mem_nil, or_false]
  tauto

/-- C7 (amended): with the transparent column resolved, a cell whose
trimmed lowercase form is in `{true,1,yes,y}` yields a free event and any
other cell yields a busy event; with the column absent the attribute is
omitted.  (Source lines 223-226.) -/
theorem c7_transparent_resolution (r : Row) (ev : Event)
    (hp : processRow r = some ev) :
    (r.transp? = none → ev.transparent = none) ∧
    (∀ v, r.transp? = some v → ev.transparent = some (truthy v)) ∧
    (∀ v, r.transp? = some v →
      (ev.transparent = some true ↔
        pyLower (pyStrip v) ∈ (["true", "1", "yes", "y"] : List String))) := by
  obtain ⟨cal, title, s?, e?, ad?, tr?, uid0, loc, desc, url⟩ := r
  dsimp only at hp ⊢
  simp only [processRow] at hp
  split at hp
  · simp at hp
  · cases s? <;> cases e? <;> simp only [buildEvent] at hp
    · exact Option.noConfusion hp
    all_goals
      rw [Option.some_inj] at hp
      subst hp
      refine ⟨?_, ?_, ?_⟩
      · intro hn
        subst hn
        rfl
      · intro v hv
        subst hv
        rfl
      · intro v hv
        subst hv
        show some (truthy v) = some true ↔ _
        rw [Option.some_inj]
        exact truthy_iff v

/-- Witness for C7: a `"true"` cell yields a free event. -/
theorem c7_transparent_resolution_witness :
    (processRow rowTranspTrue).map Event.transparent = some (some true) ∧
    rowTranspTrue.transp? = some "true" := by
  refine ⟨?_, by decide⟩
  have hs : (processRow rowTranspTrue).isSome = true := by decide
  obtain ⟨ev, hev⟩ := Option.isSome_iff_exists.mp hs
  rw [hev]
  have h2 := (c7_transparent_resolution rowTranspTrue ev hev).2.1 "true" (by decide)
  simp only [Option.map_some']
  rw [h2]
  decide

/-! ### Properties of the first-seen calendar ordering -/

/-- Membership in `firstSeenAux`: present in the remaining input and not
already seen. -/
theorem mem_firstSeenAux (l : List String) (seen : List String) (x : String) :
    x ∈ firstSeenAux seen l ↔ x ∈ l ∧ x ∉ seen := by
  induction l generalizing seen with
  | nil => simp [firstSeenAux]
  | cons y ys ih =>
    simp only [firstSeenAux]
    split
    · rename_i hy
      rw [ih]
      simp only [List.mem_cons]
      constructor
      · rintro ⟨hx, hns⟩
        exact ⟨Or.inr hx, hns⟩
      · rintro ⟨hx | hx, hns⟩
        · exact absurd (hx ▸ hy) hns
        · exact ⟨hx, hns⟩
    · rename_i hy
      simp only [List.mem_cons, ih]
      constructor
      · rintro (rfl | ⟨hx, hns⟩)
        · exact ⟨Or.inl rfl, hy⟩
        · exact ⟨Or.inr hx, fun hc => hns (Or.inr hc)⟩
      · rintro ⟨rfl | hx, hns⟩
        · exact Or.inl rfl
        · by_cases hxy : x = y
          · exact Or.inl hxy
          · exact Or.inr ⟨hx, fun hc => hc.elim hxy hns⟩

/-- `firstSeenAux` never repeats a value. -/
theorem nodup_firstSeenAux (l : List String) (seen : List String) :
    (firstSeenAux seen l).Nodup := by
  induction l generalizing seen with
  | nil => simp [firstSeenAux]
  | cons y ys ih =>
    simp only [firstSeenAux]
    split
    · exact ih seen
    · refine List.nodup_cons.mpr ⟨?_, ih (y :: seen)⟩
      intro hc
      exact ((mem_firstSeenAux ys (y :: seen) y).mp hc).2 (List.mem_cons_self y seen)

/-- `firstSeenAux` lists values in increasing order of first occurrence. -/
theorem pairwise_firstSeenAux (l : List String) (seen : List String) :
    List.Pairwise (fun a b => l.indexOf a < l.indexOf b) (firstSeenAux seen l) := by
  induction l generalizing seen with
  | nil => simp [firstSeenAux]
  | cons y ys ih =>
    simp only [firstSeenAux]
    split
    · rename_i hy
      refine List.Pairwise.imp_of_mem ?_ (ih seen)
      intro a b ha hb hab
      have ha' := (mem_firstSeenAux ys seen a).mp ha
      have hb' := (mem_firstSeenAux ys seen b).mp hb
      have hay : a ≠ y := fun h => ha'.2 (h ▸ hy)
      have hby : b ≠ y := fun h => hb'.2 (h ▸ hy)
      rw [List.indexOf_cons_ne ys (Ne.symm hay), List.indexOf_cons_ne ys (Ne.symm hby)]
      omega
    · rename_i hy
      refine List.pairwise_cons.mpr ⟨?_, ?_⟩
      · intro b hb
        have hb' := (mem_firstSeenAux ys (y :: seen) b).mp hb
        have hby : b ≠ y := fun h => hb'.2 (h ▸ List.mem_cons_self y seen)
        rw [List.indexOf_cons_self, List.indexOf_cons_ne ys (Ne.symm hby)]
        omega
      · refine List.Pairwise.imp_of_mem ?_ (ih (y :: seen))
        intro a b ha hb hab
        have ha' := (mem_firstSeenAux ys (y :: seen) a).mp ha
        have hb' := (mem_firstSeenAux ys (y :: seen) b).mp hb
        have hay : a ≠ y := fun h => ha'.2 (h ▸ List.mem_cons_self y seen)
        have hby : b ≠ y := fun h => hb'.2 (h ▸ List.mem_cons_self y seen)
        rw [List.indexOf_cons_ne ys (Ne.symm hay), List.indexOf_cons_ne ys (Ne.symm hby)]
        omega

/-- Membership in the processed-calendar list. -/
theorem mem_calendarsOf (rows : List Row) (n : String) :
    n ∈ calendarsOf rows ↔ n ≠ "" ∧ n ∈ rows.map (fun r => r.calendar) := by
  unfold calendarsOf firstSeen
  rw [List.mem_filter, mem_firstSeenAux]
  simp only [List.not_mem_nil, not_false_iff, and_true, decide_eq_true_eq]
  tauto

/-! ### Row-skip characterization and event counting -/

/-- A row yields no event exactly when its title is empty or both start
and end are unresolved. -/
theorem processRow_eq_none (r : Row) :
    processRow r = none ↔ (r.title = "" ∨ (r.start? = none ∧ r.end? = none)) := by
  obtain ⟨cal, title, s?, e?, ad?, tr?, uid0, loc, desc, url⟩ := r
  dsimp only
  simp only [processRow]
  split
  · rename_i h
    simp [h]
  · rename_i h
    cases s? <;> cases e? <;> simp only [buildEvent] <;> simp [h]

/-- The length of one feed, as a row count. -/
theorem length_feedEvents (rows : List Row) (n : String) :
    (feedEvents rows n).length =
      rows.countP (fun r => decide (r.calendar = n) && (processRow r).isSome) := by
  unfold feedEvents
  induction rows with
  | nil => rfl
  | cons r rs ih =>
    simp only [List.filter_cons, List.countP_cons]
    by_cases hc : r.calendar = n
    · simp only [hc, decide_True, Bool.true_and, if_true]
      cases hpr : processRow r with
      | none => simp [List.filterMap_cons, hpr, ih]
      | some ev => simp [List.filterMap_cons, hpr, ih]
    · simp [hc, ih]

/-- Splitting a membership-based row count at the head of the name list. -/
theorem countP_calendar_mem_cons (rows : List Row) (n : String) (ns : List String)
    (hn : n ∉ ns) :
    rows.countP (fun r => decide (r.calendar ∈ n :: ns) && (processRow r).isSome) =
      rows.countP (fun r => decide (r.calendar = n) && (processRow r).isSome) +
      rows.countP (fun r => decide (r.calendar ∈ ns) && (processRow r).isSome) := by
  induction rows with
  | nil => rfl
  | cons r rs ih =>
    simp only [List.countP_cons, ih]
    by_cases h1 : r.calendar = n
    · have h2 : r.calendar ∉ ns := fun hc => hn (h1 ▸ hc)
      cases hs : (processRow r).isSome <;>
        simp [h1, h2, hs, hn, List.mem_cons] <;> omega
    · by_cases h2 : r.calendar ∈ ns <;> cases hs : (processRow r).isSome <;>
        simp [h1, h2, hs, List.mem_cons] <;> omega

/-- `total_events` counts exactly the rows that survive: non-empty
calendar name and a produced event. -/
theorem totalEvents_eq_countP (rows : List Row) :
    totalEvents rows =
      rows.countP (fun r => decide (r.calendar ≠ "") && (processRow r).isSome) := by
  have key : ∀ names : List String, names.Nodup →
      ((names.map (fun n => (feedEvents rows n).length)).sum =
        rows.countP (fun r => decide (r.calendar ∈ names) && (processRow r).isSome)) := by
    intro names hnd
    induction names with
    | nil =>
      simp only [List.map_nil, List.sum_nil]
      induction rows with
      | nil => rfl
      | cons r rs ihr =>
        rw [List.countP_cons, ihr]
        simp
    | cons n ns ihn =>
      rw [List.map_cons, List.sum_cons, ihn (List.nodup_cons.mp hnd).2,
        length_feedEvents, ← countP_calendar_mem_cons rows n ns (List.nodup_cons.mp hnd).1]
  unfold totalEvents
  rw [key (calendarsOf rows) ((nodup_firstSeenAux _ _).filter _)]
  apply List.countP_congr
  intro r hr
  have hmem : r.calendar ∈ rows.map (fun x => x.calendar) :=
    List.mem_map_of_mem _ hr
  by_cases hne : r.calendar = ""
  · have h1 : r.calendar ∉ calendarsOf rows :=
      fun hc => ((mem_calendarsOf rows _).mp hc).1 hne
    rw [hne] at h1
    simp [hne, h1]
  · have h1 : r.calendar ∈ calendarsOf rows := (mem_calendarsOf rows _).mpr ⟨hne, hmem⟩
    simp [hne, h1]

/-! ### C5: row skipping and the empty-build failure -/

/-- A row with a non-empty title and a resolvable start is nevertheless
dropped (producing zero events and an aborted build) when its calendar
name is empty — the claim's two skip conditions are not exhaustive. -/
theorem c5_counterexample :
    rowEmptyCal.calendar = "" ∧
    ¬(rowEmptyCal.title = "" ∨ (rowEmptyCal.start? = none ∧ rowEmptyCal.end? = none)) ∧
    (processRow rowEmptyCal).isSome = true ∧
    totalEvents [rowEmptyCal] = 0 ∧
    build [rowEmptyCal] = Except.error 1 := by
  refine ⟨by decide, by decide, by decide, by decide, rfl⟩

/-- C5 (amended): a row is skipped exactly when its calendar name is
empty, its title is empty, or it has neither start nor end; skipped rows
are simply not counted (never an error), and the build hard-fails exactly
when the total event count is zero.  (Source lines 146-148, 158-179,
256-259.) -/
theorem c5_skip_and_empty_build :
    (∀ r : Row, (r.calendar = "" ∨ processRow r = none) ↔
      (r.calendar = "" ∨ r.title = "" ∨ (r.start? = none ∧ r.end? = none))) ∧
    (∀ rows : List Row, totalEvents rows =
      rows.countP (fun r => decide (r.calendar ≠ "") && (processRow r).isSome)) ∧
    (∀ rows : List Row, build rows = Except.error 1 ↔ totalEvents rows = 0) ∧
    (∀ rows : List Row, totalEvents rows ≠ 0 →
      build rows = Except.ok (manifestOf rows)) := by
  refine ⟨?_, totalEvents_eq_countP, ?_, ?_⟩
  · intro r
    rw [processRow_eq_none]
  · intro rows
    unfold build
    split
    · rename_i h
      simp [h]
    · rename_i h
      simp [h]
  · intro rows h
    unfold build
    rw [if_neg h]

/-! ### C6: manifest order -/

/-- A row with an empty calendar name is a distinct calendar value of the
input that receives no manifest entry, refuting the claim's "one entry
per distinct calendar name". -/
theorem c6_counterexample :
    (manifestOf [rowEmptyCal]).map (fun e => e.name) = [] ∧
    firstSeen ([rowEmptyCal].map (fun r => r.calendar)) = [""] ∧
    (processRow rowEmptyCal).isSome = true := by
  refine ⟨by decide, by decide, by decide⟩

/-- C6 (amended): the manifest lists one entry per distinct *non-empty*
calendar name, in the relative order those names first appear in the
rows, and events within each feed keep input row order (partitioning
commutes with concatenation).  (Source lines 140-149, 158, 245.) -/
theorem c6_manifest_first_seen_order (rows : List Row) :
    ((manifestOf rows).map (fun e => e.name) = calendarsOf rows) ∧
    (calendarsOf rows).Nodup ∧
    (∀ n, n ∈ calendarsOf rows ↔
      (n ≠ "" ∧ n ∈ rows.map (fun r => r.calendar))) ∧
    List.Pairwise
      (fun a b => (rows.map (fun r => r.calendar)).indexOf a <
        (rows.map (fun r => r.calendar)).indexOf b)
      (calendarsOf rows) ∧
    (∀ rows₂ n, feedEvents (rows ++ rows₂) n =
      feedEvents rows n ++ feedEvents rows₂ n) := by
  refine ⟨?_, (nodup_firstSeenAux _ _).filter _, mem_calendarsOf rows, ?_, ?_⟩
  · unfold manifestOf
    rw [List.map_map]
    exact List.map_id (calendarsOf rows)
  · exact (pairwise_firstSeenAux _ _).filter _
  · intro rows₂ n
    simp [feedEvents, List.filter_append, List.filterMap_append]

/-- The spec's ordering example: rows arriving in calendar order
Ops, HR, Ops yield the manifest order Ops, HR. -/
theorem c6_manifest_first_seen_order_example :
    (manifestOf [rowOpsNoTitle, rowHR, rowOpsNoTitle]).map (fun e => e.name) =
      ["Ops", "HR"] := by
  decide

/-! ### C10: empty feeds stay in the manifest -/

/-- C10: every distinct non-empty calendar name of the input gets a
manifest entry (and a feed file path), with no condition on how many of
its rows survived validation.  (Source lines 146-148, 232-247.) -/
theorem c10_empty_feed_manifest (rows : List Row) (n : String)
    (hne : n ≠ "") (hmem : n ∈ rows.map (fun r => r.calendar)) :
    (⟨n, slugify n, relIcs (slugify n)⟩ : ManifestEntry) ∈ manifestOf rows := by
  exact List.mem_map_of_mem _ ((mem_calendarsOf rows n).mpr ⟨hne, hmem⟩)

/-- Witness for C10: "Ops" appears only in a row that fails validation
(empty title), yet the build succeeds (thanks to the HR row) with an Ops
manifest entry and an empty Ops feed. -/
theorem c10_empty_feed_manifest_witness :
    (⟨"Ops", slugify "Ops", relIcs (slugify "Ops")⟩ : ManifestEntry) ∈
      manifestOf [rowOpsNoTitle, rowHR] ∧
    feedEvents [rowOpsNoTitle, rowHR] "Ops" = [] ∧
    slugify "Ops" = "ops" ∧ relIcs (slugify "Ops") = "/calendars/ops.ics" ∧
    build [rowOpsNoTitle, rowHR] = Except.ok (manifestOf [rowOpsNoTitle, rowHR]) := by
  refine ⟨c10_empty_feed_manifest [rowOpsNoTitle, rowHR] "Ops" (by decide) (by decide),
    by decide, by decide, by decide, rfl⟩

/-- What `processRow` puts in the descriptive and identity fields: title
and location verbatim (empty normalized to absent), and the UID from the
row's own column or `make_uid` over the branch-local start/end values. -/
theorem processRow_char (r : Row) (ev : Event) (hp : processRow r = some ev) :
    ev.title = r.title ∧
    ev.location = optStr r.location ∧
    ev.uid = (if r.uid ≠ "" then r.uid
      else make_uid r.title (fmtTs (startLocal r)) (fmtOptTs (endLocal r))
        ((optStr r.location).getD "")) ∧
    (alldayFlag r.allday? r.start? r.end? = true →
      ∃ b e, ev.timing = Timing.allDay b e) ∧
    (alldayFlag r.allday? r.start? r.end? = false →
      ∃ e, endLocal r = some e ∧ ev.timing = Timing.timed (startLocal r) e) := by
  obtain ⟨cal, title, s?, e?, ad?, tr?, uid0, loc, desc, url⟩ := r
  dsimp only at hp ⊢
  simp only [processRow] at hp
  split at hp
  · simp at hp
  · cases s? with
    | none =>
      cases e? with
      | none =>
        simp only [buildEvent] at hp
        exact Option.noConfusion hp
      | some e0 =>
        cases hads : alldayFlag ad? none (some e0) with
        | true =>
          simp only [buildEvent, hads] at hp
          rw [Option.some_inj] at hp
          subst hp
          refine ⟨rfl, rfl, ?_, fun _ => ⟨_, _, rfl⟩, fun hc => absurd hc (by simp)⟩
          simp only [startLocal, endLocal, hads, if_true]
        | false =>
          simp only [buildEvent, hads] at hp
          rw [Option.some_inj] at hp
          subst hp
          refine ⟨rfl, rfl, ?_, fun hc => absurd hc (by simp), fun _ => ?_⟩
          · simp only [startLocal, endLocal, hads, Bool.false_eq_true, if_false]
          · simp only [startLocal, endLocal, hads, Bool.false_eq_true, if_false]
            refine ⟨e0, ?_, ?_⟩
            · rw [if_neg (by simp [hoursTd, DEFAULT_TIMED_DURATION_HOURS])]
            · rw [if_neg (by simp [hoursTd, DEFAULT_TIMED_DURATION_HOURS])]
              rfl
    | some s0 =>
      cases e? with
      | none =>
        cases hads : alldayFlag ad? (some s0) none with
        | true =>
          simp only [buildEvent, hads] at hp
          rw [Option.some_inj] at hp
          subst hp
          refine ⟨rfl, rfl, ?_, fun _ => ⟨_, _, rfl⟩, fun hc => absurd hc (by simp)⟩
          simp only [startLocal, endLocal, hads, if_true]
        | false =>
          simp only [buildEvent, hads] at hp
          rw [Option.some_inj] at hp
          subst hp
          refine ⟨rfl, rfl, ?_, fun hc => absurd hc (by simp), fun _ => ?_⟩
          · simp only [startLocal, endLocal, hads, Bool.false_eq_true, if_false]
          · simp only [startLocal, endLocal, hads, Bool.false_eq_true, if_false]
            exact ⟨_, rfl, rfl⟩
      | some e0 =>
        cases hads : alldayFlag ad? (some s0) (some e0) with
        | true =>
          simp only [buildEvent, hads] at hp
          rw [Option.some_inj] at hp
          subst hp
          refine ⟨rfl, rfl, ?_, fun _ => ⟨_, _, rfl⟩, fun hc => absurd hc (by simp)⟩
          simp only [startLocal, endLocal, hads, if_true]
        | false =>
          simp only [buildEvent, hads] at hp
          rw [Option.some_inj] at hp
          subst hp
          refine ⟨rfl, rfl, ?_, fun hc => absurd hc (by simp), fun _ => ?_⟩
          · simp only [startLocal, endLocal, hads, Bool.false_eq_true, if_false]
          · simp only [startLocal, endLocal, hads, Bool.false_eq_true, if_false]
            split
            · exact ⟨_, rfl, rfl⟩
            · exact ⟨_, rfl, rfl⟩

/-- Two all-day rows that normalize to identical events (same title,
timing, location, both with derived UIDs) nevertheless receive different
UIDs, because the hash reads the raw pre-finalization end value
(`None` versus `2025-09-02 00:00:00`). -/
theorem c8_counterexample :
    (processRow rowOffsiteNoEnd).map Event.title =
      (processRow rowOffsiteEnd).map Event.title ∧
    (processRow rowOffsiteNoEnd).map Event.timing =
      (processRow rowOffsiteEnd).map Event.timing ∧
    (processRow rowOffsiteNoEnd).map Event.location =
      (processRow rowOffsiteEnd).map Event.location ∧
    rowOffsiteNoEnd.uid = "" ∧ rowOffsiteEnd.uid = "" ∧
    (processRow rowOffsiteNoEnd).isSome = true ∧
    (processRow rowOffsiteNoEnd).map Event.uid ≠
      (processRow rowOffsiteEnd).map Event.uid := by
  refine ⟨by decide, by decide, by decide, by decide, by decide, by decide, by decide⟩

/-- C8 (amended): a non-empty UID cell is used verbatim; a derived UID is
a deterministic hash of the row's (title, branch-local start, branch-local
end, location) — so rows agreeing on those inputs get equal UIDs, and for
*timed* events identical normalized (title, begin, end, location) do give
equal derived UIDs; all-day events hash the raw end instead.
(Source lines 66-68, 220-221.) -/
theorem c8_uid_resolution :
    (∀ r ev, processRow r = some ev → r.uid ≠ "" → ev.uid = r.uid) ∧
    (∀ r₁ r₂ ev₁ ev₂, processRow r₁ = some ev₁ → processRow r₂ = some ev₂ →
      r₁.uid = "" → r₂.uid = "" → r₁.title = r₂.title → r₁.start? = r₂.start? →
      r₁.end? = r₂.end? → r₁.allday? = r₂.allday? → r₁.location = r₂.location →
      ev₁.uid = ev₂.uid) ∧
    (∀ r₁ r₂ ev₁ ev₂, processRow r₁ = some ev₁ → processRow r₂ = some ev₂ →
      r₁.uid = "" → r₂.uid = "" → ev₁.title = ev₂.title →
      ev₁.location = ev₂.location → ev₁.timing = ev₂.timing →
      (∃ b e, ev₁.timing = Timing.timed b e) →
      ev₁.uid = ev₂.uid) := by
  refine ⟨?_, ?_, ?_⟩
  · intro r ev hp hu
    rw [(processRow_char r ev hp).2.2.1, if_pos hu]
  · intro r₁ r₂ ev₁ ev₂ hp₁ hp₂ hu₁ hu₂ ht hs he had hl
    have hSL : startLocal r₁ = startLocal r₂ := by
      unfold startLocal
      rw [hs, he, had]
    have hEL : endLocal r₁ = endLocal r₂ := by
      unfold endLocal
      rw [hs, he, had, hSL]
    rw [(processRow_char r₁ ev₁ hp₁).2.2.1, (processRow_char r₂ ev₂ hp₂).2.2.1,
      if_neg (by simp [hu₁]), if_neg (by simp [hu₂]), ht, hl, hSL, hEL]
  · intro r₁ r₂ ev₁ ev₂ hp₁ hp₂ hu₁ hu₂ ht hl htm ⟨b, e, htimed⟩
    have hc₁ := processRow_char r₁ ev₁ hp₁
    have hc₂ := processRow_char r₂ ev₂ hp₂
    have hf₁ : alldayFlag r₁.allday? r₁.start? r₁.end? = false := by
      cases hads : alldayFlag r₁.allday? r₁.start? r₁.end? with
      | true =>
        obtain ⟨b', e', hall⟩ := hc₁.2.2.2.1 hads
        rw [htimed] at hall
        exact Timing.noConfusion hall
      | false => rfl
    have hf₂ : alldayFlag r₂.allday? r₂.start? r₂.end? = false := by
      cases hads : alldayFlag r₂.allday? r₂.start? r₂.end? with
      | true =>
        obtain ⟨b', e', hall⟩ := hc₂.2.2.2.1 hads
        rw [← htm, htimed] at hall
        exact Timing.noConfusion hall
      | false => rfl
    obtain ⟨e₁, hEL₁, htm₁⟩ := hc₁.2.2.2.2 hf₁
    obtain ⟨e₂, hEL₂, htm₂⟩ := hc₂.2.2.2.2 hf₂
    rw [htm₁, htm₂] at htm
    have hSL : startLocal r₁ = startLocal r₂ := by injection htm
    have hee : e₁ = e₂ := by injection htm
    have hEL : endLocal r₁ = endLocal r₂ := by rw [hEL₁, hEL₂, hee]
    have hT : r₁.title = r₂.title := by
      rw [← hc₁.1, ← hc₂.1]
      exact ht
    have hL : optStr r₁.location = optStr r₂.location := by
      rw [← hc₁.2.1, ← hc₂.2.1]
      exact hl
    rw [hc₁.2.2.1, hc₂.2.2.1, if_neg (by simp [hu₁]), if_neg (by simp [hu₂]),
      hT, hSL, hEL, hL]

/-- Witness for C8: the UID cell value `"evt-1"` is carried over
verbatim. -/
theorem c8_uid_resolution_witness :
    (processRow rowWithUid).map Event.uid = some "evt-1" ∧
    rowWithUid.uid = "evt-1" := by
  refine ⟨?_, by decide⟩
  have hs : (processRow rowWithUid).isSome = true := by decide
  obtain ⟨ev, hev⟩ := Option.isSome_iff_exists.mp hs
  rw [hev, Option.map_some']
  rw [c8_uid_resolution.1 rowWithUid ev hev (by decide)]
  rfl

/-! ### C9: slug derivation is idempotent -/

/-- Slug characters are not hyphens. -/
theorem slug_ne_hyphen (c : Char) (h : isSlugChar c = true) : c ≠ '-' := by
  intro hc
  subst hc
  exact absurd h (by decide)

/-- Slug characters are already lowercase. -/
theorem slug_lower_fixed (c : Char) (h : isSlugChar c = true) : lowerChar c = c := by
  unfold lowerChar
  rw [if_neg]
  unfold isSlugChar at h
  simp only [Bool.or_eq_true, Bool.and_eq_true, decide_eq_true_eq] at h
  have ha : 'a'.val.toBitVec.toNat = 97 := rfl
  have hz : 'z'.val.toBitVec.toNat = 122 := rfl
  have h0 : '0'.val.toBitVec.toNat = 48 := rfl
  have h9 : '9'.val.toBitVec.toNat = 57 := rfl
  have hA : 'A'.val.toBitVec.toNat = 65 := rfl
  have hZ : 'Z'.val.toBitVec.toNat = 90 := rfl
  simp only [Char.le_def, UInt32.le_def, BitVec.le_def] at *
  omega

/-- Slug characters are not whitespace. -/
theorem slug_not_ws (c : Char) (h : isSlugChar c = true) : isPyWs c = false := by
  cases hw : isPyWs c with
  | false => rfl
  | true =>
    exfalso
    unfold isPyWs at hw
    simp only [Bool.or_eq_true, decide_eq_true_eq] at hw
    rcases hw with ((((hc | hc) | hc) | hc) | hc) | hc <;> subst hc <;> exact absurd h (by decide)

/-- Every character the regex substitution emits is a slug character or a
hyphen. -/
theorem mem_subRuns (l : List Char) (b : Bool) (c : Char) (h : c ∈ subRuns l b) :
    isSlugChar c = true ∨ c = '-' := by
  induction l generalizing b with
  | nil => simp [subRuns] at h
  | cons x xs ih =>
    unfold subRuns at h
    split at h
    · rcases List.mem_cons.mp h with rfl | h
      · rename_i hx
        exact Or.inl hx
      · exact ih false h
    · split at h
      · exact ih true h
      · rcases List.mem_cons.mp h with rfl | h
        · exact Or.inr rfl
        · exact ih true h

/-- Inside a run (flag `true`), the next emitted character is a slug
character. -/
theorem head_subRuns_true (l : List Char) (c : Char)
    (h : (subRuns l true).head? = some c) : isSlugChar c = true := by
  induction l with
  | nil => simp [subRuns] at h
  | cons x xs ih =>
    unfold subRuns at h
    split at h
    · rename_i hx
      rw [List.head?_cons, Option.some_inj] at h
      exact h ▸ hx
    · exact ih h

/-- The substitution never emits two adjacent hyphens. -/
theorem chain_subRuns (l : List Char) (b : Bool) :
    List.Chain' (fun a c => ¬(a = '-' ∧ c = '-')) (subRuns l b) := by
  induction l generalizing b with
  | nil => simp [subRuns]
  | cons x xs ih =>
    unfold subRuns
    split
    · rename_i hx
      rw [List.chain'_cons']
      exact ⟨fun y _ hc => (slug_ne_hyphen x hx) hc.1, ih false⟩
    · split
      · exact ih true
      · rw [List.chain'_cons']
        refine ⟨fun y hy hc => ?_, ih true⟩
        exact (slug_ne_hyphen y (head_subRuns_true xs y hy)) hc.2

/-- `dropWhile` is the identity when no element satisfies the predicate. -/
theorem dropWhile_all_neg (p : Char → Bool) (l : List Char)
    (h : ∀ c ∈ l, p c = false) : l.dropWhile p = l := by
  cases l with
  | nil => rfl
  | cons c cs =>
    rw [List.dropWhile_cons, if_neg (by simp [h c (List.mem_cons_self c cs)])]

/-- `stripList` is the identity when no element satisfies the predicate. -/
theorem stripList_all_neg (p : Char → Bool) (l : List Char)
    (h : ∀ c ∈ l, p c = false) : stripList p l = l := by
  unfold stripList
  rw [dropWhile_all_neg p l h, dropWhile_all_neg p l.reverse
    (fun c hc => h c (List.mem_reverse.mp hc)), List.reverse_reverse]

/-- Stripping only removes elements. -/
theorem mem_stripList (p : Char → Bool) (l : List Char) (c : Char)
    (h : c ∈ stripList p l) : c ∈ l := by
  unfold stripList at h
  rw [List.mem_reverse] at h
  have h2 : c ∈ (l.dropWhile p).reverse := (List.dropWhile_sublist p).subset h
  rw [List.mem_reverse] at h2
  exact (List.dropWhile_sublist p).subset h2

/-- `stripList` written with `rdropWhile`. -/
theorem stripList_eq_rdrop (p : Char → Bool) (l : List Char) :
    stripList p l = List.rdropWhile p (l.dropWhile p) := rfl

/-- `rdropWhile` only cuts from the right end. -/
theorem rdrop_front (p : Char → Bool) (l : List Char) :
    List.rdropWhile p l <+: l :=
  List.rdropWhile_prefix p l

/-- Stripping from both ends yields a contiguous slice. -/
theorem stripList_isInfix (p : Char → Bool) (l : List Char) :
    stripList p l <:+: l := by
  rw [stripList_eq_rdrop]
  exact (rdrop_front p _).isInfix.trans (List.dropWhile_suffix p).isInfix

/-- Stripping both ends twice is the same as stripping once. -/
theorem stripList_idem (p : Char → Bool) (l : List Char) :
    stripList p (stripList p l) = stripList p l := by
  rw [stripList_eq_rdrop, stripList_eq_rdrop]
  have hX : (l.dropWhile p).dropWhile p = l.dropWhile p := List.dropWhile_idempotent p l
  obtain ⟨t, ht⟩ := rdrop_front p (l.dropWhile p)
  have hhead : (List.rdropWhile p (l.dropWhile p)).dropWhile p
      = List.rdropWhile p (l.dropWhile p) := by
    cases hrd : List.rdropWhile p (l.dropWhile p) with
    | nil => rfl
    | cons a as =>
      rw [List.dropWhile_cons]
      split
      · rename_i hpa
        exfalso
        rw [hrd, List.cons_append] at ht
        rw [← ht, List.dropWhile_cons, if_pos hpa] at hX
        have h2 := List.Sublist.length_le (List.dropWhile_sublist p (l := as ++ t))
        have h3 := congrArg List.length hX
        simp only [List.length_cons] at h3
        omega
      · rfl
  rw [hhead, List.rdropWhile_idempotent]

/-- On a list of slug characters and isolated hyphens, the regex
substitution is the identity (outside a run; inside a run, provided the
next character is not a hyphen). -/
theorem subRuns_fixed (l : List Char)
    (hmem : ∀ c ∈ l, isSlugChar c = true ∨ c = '-')
    (hch : List.Chain' (fun a c => ¬(a = '-' ∧ c = '-')) l) :
    subRuns l false = l ∧ ((∀ c, l.head? = some c → c ≠ '-') → subRuns l true = l) := by
  induction l with
  | nil => exact ⟨rfl, fun _ => rfl⟩
  | cons x xs ih =>
    have hmem' : ∀ c ∈ xs, isSlugChar c = true ∨ c = '-' :=
      fun c hc => hmem c (List.mem_cons_of_mem x hc)
    have hch' : List.Chain' (fun a c => ¬(a = '-' ∧ c = '-')) xs :=
      (List.chain'_cons'.mp hch).2
    have ihx := ih hmem' hch'
    rcases hmem x (List.mem_cons_self x xs) with hx | rfl
    · constructor
      · unfold subRuns
        rw [if_pos hx, ihx.1]
      · intro _
        unfold subRuns
        rw [if_pos hx, ihx.1]
    · have hxs : ∀ c, xs.head? = some c → c ≠ '-' := by
        intro c hc hcc
        exact ((List.chain'_cons'.mp hch).1 c hc) ⟨rfl, hcc⟩
      constructor
      · unfold subRuns
        rw [if_neg (show ¬(isSlugChar '-' = true) from by decide)]
        simp only [Bool.false_eq_true, if_false]
        rw [ihx.2 hxs]
      · intro hhead
        exact absurd rfl (hhead '-' rfl)

/-- `slugifyList` output consists of slug characters and isolated
hyphens. -/
theorem mem_slugifyList (l : List Char) (c : Char) (h : c ∈ slugifyList l) :
    isSlugChar c = true ∨ c = '-' := by
  unfold slugifyList stripHyphens at h
  exact mem_subRuns _ false c (mem_stripList _ _ c h)

/-- Mapping a function that fixes every element is the identity. -/
theorem map_fixed (f : Char → Char) (l : List Char) (h : ∀ c ∈ l, f c = c) :
    l.map f = l := by
  induction l with
  | nil => rfl
  | cons c cs ih =>
    rw [List.map_cons, h c (List.mem_cons_self c cs),
      ih (fun x hx => h x (List.mem_cons_of_mem c hx))]

/-- C9 core: `slugifyList` is a fixpoint on its own output. -/
theorem slugifyList_fixpoint (l : List Char) :
    slugifyList (slugifyList l) = slugifyList l := by
  have hmem := mem_slugifyList l
  have hch : List.Chain' (fun a c => ¬(a = '-' ∧ c = '-')) (slugifyList l) := by
    unfold slugifyList stripHyphens
    exact List.Chain'.infix (chain_subRuns _ false) (stripList_isInfix _ _)
  have key : slugifyList (slugifyList l) =
      stripHyphens (subRuns ((stripList isPyWs (slugifyList l)).map lowerChar) false) := rfl
  rw [key, stripList_all_neg isPyWs _ (fun c hc => by
    rcases hmem c hc with hc' | rfl
    · exact slug_not_ws c hc'
    · decide)]
  rw [map_fixed lowerChar _ (fun c hc => by
    rcases hmem c hc with hc' | rfl
    · exact slug_lower_fixed c hc'
    · decide)]
  rw [(subRuns_fixed (slugifyList l) hmem hch).1]
  unfold slugifyList stripHyphens
  exact stripList_idem _ _

/-- C9: slug derivation is a pure function of the calendar name —
lowercase, collapse non-alphanumeric runs to single hyphens, strip edge
hyphens, fall back to "calendar" — and it is idempotent.
(Source lines 42-47.) -/
theorem c9_slugify_idempotent (name : String) :
    slugify (slugify name) = slugify name := by
  by_cases h : slugifyList name.data = []
  · rw [show slugify name = "calendar" from by simp [slugify, h]]
    decide
  · have hs : slugify name = String.mk (slugifyList name.data) := by
      simp [slugify, h]
    rw [hs]
    have hfix := slugifyList_fixpoint name.data
    simp [slugify, hfix, h]

/-- Witness for C5: a build with one valid row succeeds with its
manifest, and counts exactly that row. -/
theorem c5_skip_and_empty_build_witness :
    build [rowHR] = Except.ok (manifestOf [rowHR]) ∧ totalEvents [rowHR] = 1 := by
  refine ⟨c5_skip_and_empty_build.2.2.2 [rowHR] (by decide), by decide⟩

end CalGen
